import Mathlib

/-!
# Shallow embedding of the live-observability core (`src/api/schema/metrics/mod.rs`, `src/api/tap.rs`)

This file models, in Lean, the metric classification/aggregation pipeline and the
tap sink/controller of the repository, and proves the frozen claims about them.

Modelling conventions:
* `f64` counter values are modelled as `ℚ` (the code only adds, subtracts,
  compares and takes `max` of values; no rounding-sensitive operation occurs).
* `BTreeMap<String, String>` tag maps are modelled as key-sorted association
  lists (`Tags`); `BTreeMap` comparison is lexicographic over its sorted
  entries, which on the canonical representation is `tagsCmp` below.
* Rust `String` comparison is byte-lexicographic on UTF-8, which coincides with
  lexicographic comparison of unicode scalar values; we compare `String.data`
  (`List Char`) lexicographically.
* Streams are modelled as pure functions over the finite list of elements one
  subscription observes; mutable per-stream caches become explicitly threaded
  state.  `Vec` mutation in `aggregate` (drain/extend) becomes a returned pair.
* `sort_unstable_by` is deterministic but leaves the order of equal keys
  unspecified; it is modelled by a deterministic (stable) sort with the same
  comparator, which is one legitimate refinement of it.
-/

namespace VectorObs

/-- Tag maps: `Option<BTreeMap<String, String>>` is `Option Tags`, with the
list kept in key-sorted order (the `BTreeMap` canonical form). -/
abbrev Tags := List (String × String)

/-- Modelled from the spec: tags are a mapping with unique keys; lookup of a key.
(`BTreeMap::get` behaviour used by `Metric::tag_value`, which lives outside `src/`.) -/
def tagsGet (tags : Tags) (key : String) : Option String :=
  (tags.find? (fun p => p.1 == key)).map (·.2)

/-- `BTreeMap::remove` restricted to its effect on the map: drop the key. -/
def tagsRemove (tags : Tags) (key : String) : Tags :=
  tags.filter (fun p => p.1 != key)

/-- `MetricValue`: the aggregation code only distinguishes `Counter` from
every other variant, so the other variants are represented by `gauge`. -/
inductive MetricValue
  | counter (value : ℚ)
  | gauge (value : ℚ)
  deriving DecidableEq

inductive MetricKind
  | incremental
  | absolute
  deriving DecidableEq

/-- The `Metric` event struct (field shape as constructed in the repository's
own tests).  The Rust field `namespace` is `nspace` here (`namespace` is a
Lean keyword). -/
structure Metric where
  name : String
  nspace : Option String
  tags : Option Tags
  value : MetricValue
  timestamp : Option Int
  kind : MetricKind
  deriving DecidableEq

/-- Modelled from the spec: `Metric::tag_value` (outside `src/`) returns the
value of the given tag key, if tags are present and contain it. -/
def Metric.tag_value (m : Metric) (key : String) : Option String :=
  m.tags.bind (fun tags => tagsGet tags key)

/-- `capture_metrics` yields `Event`s; only the `Metric` variant matters to
this core, all others (`Log`) are ignored by it. -/
inductive MEvent
  | metric (m : Metric)
  | log
  deriving DecidableEq

/-! ## Comparators

Rust's derived `Ord` for `(String, Option<BTreeMap<String, String>>)`:
strings byte-lexicographic, `None < Some`, maps lexicographic over sorted
entries, pairs lexicographic. -/

def natCmp (a b : Nat) : Ordering :=
  if a < b then .lt else if a = b then .eq else .gt

def charCmp (a b : Char) : Ordering :=
  natCmp a.toNat b.toNat

def listCmp (f : α → α → Ordering) : List α → List α → Ordering
  | [], [] => .eq
  | [], _ :: _ => .lt
  | _ :: _, [] => .gt
  | a :: as, b :: bs =>
    match f a b with
    | .eq => listCmp f as bs
    | o => o

def strCmp (a b : String) : Ordering :=
  listCmp charCmp a.data b.data

def pairCmp (f : α → α → Ordering) (g : β → β → Ordering) (a b : α × β) : Ordering :=
  match f a.1 b.1 with
  | .eq => g a.2 b.2
  | o => o

def tagsCmp : Tags → Tags → Ordering :=
  listCmp (pairCmp strCmp strCmp)

def optCmp (f : α → α → Ordering) : Option α → Option α → Ordering
  | none, none => .eq
  | none, some _ => .lt
  | some _, none => .gt
  | some a, some b => f a b

/-- The key the `aggregate` sort compares: `(&m.name, &m.tags)`. -/
def metricKeyCmp (a b : Metric) : Ordering :=
  pairCmp strCmp (optCmp tagsCmp) (a.name, a.tags) (b.name, b.tags)

/-! ## `aggregate` (mod.rs lines 270–310) -/

/-- First loop of `aggregate`: remove the `origin` tag. -/
def stripMetric (m : Metric) : Metric :=
  { m with tags := m.tags.map (fun tags => tagsRemove tags "origin") }

/-- The removed `origin` value (`tags.as_mut().and_then(|tags| tags.remove("origin"))`). -/
def originOf (m : Metric) : Option String :=
  m.tags.bind (fun tags => tagsGet tags "origin")

/-- The priority flag: removed `origin` equals the (post-removal) `component_type` tag. -/
def priorityFlag (m : Metric) : Bool :=
  originOf m == (stripMetric m).tag_value "component_type"

/-- One pass of the first `aggregate` loop over a `(Metric, bool)` entry:
the incoming flag is overwritten. -/
def stripAndFlag (p : Metric × Bool) : Metric × Bool :=
  (stripMetric p.1, priorityFlag p.1)

/-- The comparator of `metrics.sort_unstable_by` as a relation. -/
def aggRel (a b : Metric × Bool) : Prop :=
  metricKeyCmp a.1 b.1 ≠ Ordering.gt

instance : DecidableRel aggRel := fun a b =>
  inferInstanceAs (Decidable (metricKeyCmp a.1 b.1 ≠ Ordering.gt))

/-- The `dedup_by` closure: `curr` is the candidate (later element), `prev` the
retained one; `some updatedPrev` means `curr` is dropped and `prev`'s value
replaced, `none` means both are kept. -/
def mergePair (curr prev : Metric × Bool) : Option (Metric × Bool) :=
  if curr.1.name = prev.1.name ∧ curr.1.tags = prev.1.tags then
    match curr.1.value, prev.1.value with
    | .counter a, .counter b =>
      let value :=
        if prev.1.name = "events_processed_total" ∨ prev.1.name = "processed_bytes_total" then
          match curr.2, prev.2 with
          | true, false => a
          | false, true => b
          | true, true => max a b
          | false, false => max a b
        else a + b
      some ({ prev.1 with value := .counter value }, prev.2)
    | _, _ => none
  else none

/-- `Vec::dedup_by` with the merge closure: `acc` holds the retained elements in
reverse; each new element is compared against the last retained one. -/
def dedupLoop : List (Metric × Bool) → List (Metric × Bool) → List (Metric × Bool)
  | acc, [] => acc.reverse
  | [], x :: xs => dedupLoop [x] xs
  | p :: rest, x :: xs =>
    match mergePair x p with
    | some p' => dedupLoop (p' :: rest) xs
    | none => dedupLoop (x :: p :: rest) xs

def dedupBy (l : List (Metric × Bool)) : List (Metric × Bool) :=
  dedupLoop [] l

/-- The block of metrics `aggregate` appends to `out`: strip/flag every entry,
sort by `(name, tags)`, merge adjacent equal-key counter pairs, drop the flags. -/
def aggBlock (metrics : List (Metric × Bool)) : List Metric :=
  (dedupBy (List.insertionSort aggRel (metrics.map stripAndFlag))).map (·.1)

/-- `fn aggregate(metrics: &mut Vec<(Metric, bool)>, out: &mut Vec<Metric>)`:
the buffer is drained (left empty) and the merged metrics are appended to
`out`; the returned pair is the final state of the two `&mut` arguments. -/
def aggregate (metrics : List (Metric × Bool)) (out : List Metric) :
    List (Metric × Bool) × List Metric :=
  ([], out ++ aggBlock metrics)

/-- The `metric` helper of the repository's tests. -/
def mkMetric (name : String) (tags : Tags) (value : ℚ) : Metric :=
  { name := name, nspace := none, tags := some tags,
    value := .counter value, timestamp := none, kind := .incremental }

/-- The `aggregate_test` helper of the repository's tests. -/
def aggregate_test (metrics : List Metric) : List Metric :=
  (aggregate (metrics.map (fun m => (m, false))) []).2

/-! ## `component_metrics` (mod.rs lines 221–268) -/

/-- Component roles from the registry (`Component::Source/Transform/Sink`);
the configuration payloads are irrelevant here. -/
inductive Component
  | source
  | transform
  | sink
  deriving DecidableEq

/-- The sort rank assigned in the classification `filter_map`. -/
def rankOf : Component → Nat
  | .source => 1
  | .transform => 2
  | .sink => 3

/-- The `COMPONENTS` registry read: a concurrently-read name → role mapping,
modelled as a lookup function. -/
abbrev Registry := String → Option Component

/-- The classification `filter_map`: keep `Event::Metric`s that carry a
`component_name` tag naming a registered component, attaching the role rank. -/
def classify (registry : Registry) (events : List MEvent) : List (Metric × Nat) :=
  events.filterMap fun ev =>
    match ev with
    | .metric m =>
      match m.tag_value "component_name" with
      | some name =>
        match registry name with
        | some c => some (m, rankOf c)
        | none => none
      | none => none
    | .log => none

/-- The `sorted_by_key(|m| (m.1, m.0.name.clone()))` key order: rank first,
then the *metric* name (byte-lexicographic). -/
def sortRel (a b : Metric × Nat) : Prop :=
  a.2 < b.2 ∨ (a.2 = b.2 ∧ a.1.name.data ≤ b.1.name.data)

instance : DecidableRel sortRel := fun a b =>
  inferInstanceAs (Decidable (a.2 < b.2 ∨ (a.2 = b.2 ∧ a.1.name.data ≤ b.1.name.data)))

/-- The grouping walk of `component_metrics`: accumulate a run of metrics
sharing the current `component_name`; on a change of name (and at the end)
flush the run through `aggregate` into the output. -/
def componentLoop : List Metric → List (Metric × Bool) → Option String → List Metric → List Metric
  | [], component, _, out => (aggregate component out).2
  | m :: rest, component, currName, out =>
    if currName = m.tag_value "component_name" then
      componentLoop rest (component ++ [(m, false)]) currName out
    else
      componentLoop rest [(m, false)] (m.tag_value "component_name") ((aggregate component out).2)

/-- One interval of the `component_metrics` stream: classify and rank the
captured events, stable-sort by `(rank, metric name)`, then aggregate each
contiguous run of equal `component_name`. -/
def component_metrics (registry : Registry) (events : List MEvent) : List Metric :=
  let sorted := (List.insertionSort sortRel (classify registry events)).map (·.1)
  componentLoop sorted [] none []

/-! ## Throughput trackers (mod.rs lines 342–422) -/

/-- One interval of `get_metrics`: every `Event::Metric` of the snapshot, in
order; a stream over several ticks is the concatenation. -/
def get_metrics (ticks : List (List MEvent)) : List Metric :=
  ticks.flatMap fun tick =>
    tick.filterMap fun ev =>
      match ev with
      | .metric m => some m
      | .log => none

/-- The stateful `filter_map` of `counter_throughput`: `last` starts at `0.00`;
a counter emits `(metric, value - last)` and updates `last` only when
`value > last`. -/
def counterThroughputLoop (last : ℚ) : List Metric → List (Metric × ℚ)
  | [] => []
  | m :: rest =>
    match m.value with
    | .counter value =>
      if last < value then (m, value - last) :: counterThroughputLoop value rest
      else counterThroughputLoop last rest
    | _ => counterThroughputLoop last rest

/-- `counter_throughput`: filter, stateful delta, then `.skip(1)` (the first
emission, whose predecessor state is the initial `0.00`, is discarded). -/
def counter_throughput (filter_fn : Metric → Bool) (ticks : List (List MEvent)) :
    List (Metric × ℚ) :=
  (counterThroughputLoop 0 ((get_metrics ticks).filter filter_fn)).drop 1

/-- The per-stream `BTreeMap<String, f64>` cache; `insert` returns the previous
value for the key and stores the new one. -/
def cacheInsert (cache : List (String × ℚ)) (key : String) (value : ℚ) :
    Option ℚ × List (String × ℚ) :=
  match cache.find? (fun p => p.1 == key) with
  | some p => (some p.2, cache.map (fun q => if q.1 == key then (key, value) else q))
  | none => (none, cache ++ [(key, value)])

/-- One interval of the `component_counter_throughputs` closure:
`filter(filter_fn)` then the cache-updating `filter_map`, which emits
`(metric, value - last)` unconditionally for counters. -/
def throughputInterval (filter_fn : Metric → Bool) :
    List Metric → List (String × ℚ) → List (Metric × ℚ) × List (String × ℚ)
  | [], cache => ([], cache)
  | m :: rest, cache =>
    if filter_fn m then
      match m.tag_value "component_name" with
      | some component_name =>
        match m.value with
        | .counter value =>
          let (old, cache') := cacheInsert cache component_name value
          let (outs, cache'') := throughputInterval filter_fn rest cache'
          ((m, value - old.getD 0) :: outs, cache'')
        | _ => throughputInterval filter_fn rest cache
      | none => throughputInterval filter_fn rest cache
    else throughputInterval filter_fn rest cache

/-- The mapped stream of per-interval vectors, threading the cache. -/
def throughputsLoop (filter_fn : Metric → Bool) :
    List (List Metric) → List (String × ℚ) → List (List (Metric × ℚ))
  | [], _ => []
  | iv :: rest, cache =>
    let (outs, cache') := throughputInterval filter_fn iv cache
    outs :: throughputsLoop filter_fn rest cache'

/-- `component_counter_throughputs`: map each `component_metrics` interval
through the caching delta closure, then `.skip(1)` (the first interval's
vector is dropped, but its cache updates persist). -/
def component_counter_throughputs (filter_fn : Metric → Bool) (registry : Registry)
    (ticks : List (List MEvent)) : List (List (Metric × ℚ)) :=
  (throughputsLoop filter_fn (ticks.map (component_metrics registry)) []).drop 1

/-- One interval of the `component_counter_metrics` closure: the cache is
updated on every counter reading, and the metric is emitted only when the new
value strictly exceeds the previous one (`unwrap_or(0.00)` when absent). -/
def totalsInterval (filter_fn : Metric → Bool) :
    List Metric → List (String × ℚ) → List Metric × List (String × ℚ)
  | [], cache => ([], cache)
  | m :: rest, cache =>
    if filter_fn m then
      match m.tag_value "component_name" with
      | some component_name =>
        match m.value with
        | .counter value =>
          let (old, cache') := cacheInsert cache component_name value
          let (outs, cache'') := totalsInterval filter_fn rest cache'
          (if old.getD 0 < value then m :: outs else outs, cache'')
        | _ => totalsInterval filter_fn rest cache
      | none => totalsInterval filter_fn rest cache
    else totalsInterval filter_fn rest cache

def totalsLoop (filter_fn : Metric → Bool) :
    List (List Metric) → List (String × ℚ) → List (List Metric)
  | [], _ => []
  | iv :: rest, cache =>
    let (outs, cache') := totalsInterval filter_fn iv cache
    outs :: totalsLoop filter_fn rest cache'

/-- `component_counter_metrics`: the per-component "only if increased" view
(no `.skip(1)` here). -/
def component_counter_metrics (filter_fn : Metric → Bool) (registry : Registry)
    (ticks : List (List MEvent)) : List (List Metric) :=
  totalsLoop filter_fn (ticks.map (component_metrics registry)) []

/-! ## Tap sink and controller (`src/api/tap.rs`)

The unbounded result channel is modelled as the list of `TapResult`s enqueued
so far (sends never fail; a dropped receiver only discards messages, which the
code ignores).  UUIDs are modelled as naturals drawn from a seed: all that the
code relies on is their identity. -/

inductive TapNotification
  | componentMatched
  | componentNotMatched
  deriving DecidableEq

/-- Log events are opaque payloads to the tap code. -/
abbrev LogEvent := Nat

inductive TapResult
  | logEvent (input_name : String) (ev : LogEvent)
  | notification (input_name : String) (n : TapNotification)
  deriving DecidableEq

structure TapSink where
  id : Nat
  inputs : List (String × Nat)
  deriving DecidableEq

/-- `TapSink::new`: assign a fresh UUID to each input name and to the sink. -/
def TapSink.new (input_names : List String) (seed : Nat) : TapSink :=
  { id := seed,
    inputs := input_names.mapIdx (fun i name => (name, seed + 1 + i)) }

/-- `HashMap::contains_key` on the input table. -/
def TapSink.containsInput (sink : TapSink) (input_name : String) : Bool :=
  sink.inputs.any (fun p => p.1 == input_name)

/-- `TapSink::send`: enqueue on the unbounded result channel. -/
def TapSink.send (q : List TapResult) (msg : TapResult) : List TapResult :=
  q ++ [msg]

/-- `TapSink::component_matched`: a no-op unless the name is a constructed
input, otherwise enqueue one `Matched` notification. -/
def TapSink.component_matched (sink : TapSink) (input_name : String)
    (q : List TapResult) : List TapResult :=
  if sink.containsInput input_name then
    TapSink.send q (.notification input_name .componentMatched)
  else q

/-- `TapSink::component_not_matched`: a no-op unless the name is a constructed
input, otherwise enqueue one `NotMatched` notification. -/
def TapSink.component_not_matched (sink : TapSink) (input_name : String)
    (q : List TapResult) : List TapResult :=
  if sink.containsInput input_name then
    TapSink.send q (.notification input_name .componentNotMatched)
  else q

inductive TapControl
  | start (sink : TapSink)
  | stop (sink : TapSink)
  deriving DecidableEq

/-- The only `ControlMessage` variant this core sends. -/
inductive ControlMessage
  | tap (c : TapControl)
  deriving DecidableEq

structure TapController where
  sink : TapSink

/-- `TapController::new`: send `Tap(Start(sink))` on the control channel
(modelled as the list of messages sent so far) and keep the sink. -/
def TapController.new (control : List ControlMessage) (sink : TapSink) :
    TapController × List ControlMessage :=
  ({ sink := sink }, control ++ [.tap (.start sink)])

/-- `impl Drop for TapController`: send `Tap(Stop(sink))` for the held sink. -/
def TapController.drop (c : TapController) (control : List ControlMessage) :
    List ControlMessage :=
  control ++ [.tap (.stop c.sink)]

/-! ## Derived notions used by the claims -/

/-- The owning component of a metric: its `component_name` tag. -/
abbrev cname (m : Metric) : Option String := m.tag_value "component_name"

/-- The role rank a (possibly absent) component name resolves to; names that
are absent or unregistered get rank 0 (they never appear in the pipeline's
output, see `component_name_tag_present`). -/
def nrank (registry : Registry) : Option String → Nat
  | none => 0
  | some name =>
    match registry name with
    | some c => rankOf c
    | none => 0

/-- The role rank of a metric's owning component. -/
def mrank (registry : Registry) (m : Metric) : Nat :=
  nrank registry (cname m)

/-- Collapse adjacent duplicates of a list of keys. -/
def collapseAdj : List (Option String) → List (Option String)
  | [] => []
  | [x] => [x]
  | x :: y :: rest => if x = y then collapseAdj (y :: rest) else x :: collapseAdj (y :: rest)

/-- A metric list is grouped by `component_name` iff equal component names only
occur contiguously, i.e. the adjacent-collapsed key list has no duplicates. -/
def groupedByCname (l : List Metric) : Prop :=
  (collapseAdj (l.map cname)).Nodup

instance (l : List Metric) : Decidable (groupedByCname l) :=
  inferInstanceAs (Decidable (collapseAdj (l.map cname)).Nodup)

/-! ## Concrete fixtures used by counterexamples and witnesses -/

/-- A registry with two Source-role components `A` and `B`. -/
def regAB : Registry := fun name =>
  if name = "A" then some Component.source
  else if name = "B" then some Component.source
  else none

/-- Three metrics of one interval: components A and B both emit
`events_processed_total`, and A also emits `processed_bytes_total`. -/
def eventsABA : List MEvent :=
  [.metric (mkMetric "events_processed_total" [("component_name", "A")] 1),
   .metric (mkMetric "events_processed_total" [("component_name", "B")] 2),
   .metric (mkMetric "processed_bytes_total" [("component_name", "A")] 3)]

/-- The filter used by the events-processed subscriptions:
`|m| m.name == "events_processed_total"`. -/
def filterEventsProcessed : Metric → Bool := fun m =>
  m.name == "events_processed_total"

/-- A registry with a single Source-role component `c`. -/
def regC : Registry := fun name =>
  if name = "c" then some Component.source else none

/-- One sampling interval in which component `c` reads counter value `v`. -/
def tickC (v : ℚ) : List MEvent :=
  [.metric (mkMetric "events_processed_total" [("component_name", "c")] v)]

/-- The claimed merge rule for a counter pair `(a, b)` with priority flags
`(p1, p2)` under a given metric name (used to state C1). -/
def mergedValue (name : String) (p1 p2 : Bool) (a b : ℚ) : ℚ :=
  if name = "events_processed_total" ∨ name = "processed_bytes_total" then
    match p1, p2 with
    | true, false => a
    | false, true => b
    | true, true => max a b
    | false, false => max a b
  else a + b

/-! ## Replayed unit tests of `aggregate` (mod.rs lines 424-578) -/

/-- Replays the repository's `sum` unit test. -/
theorem aggregate_test_sum :
    aggregate_test
      [mkMetric "some_metric" [("origin", "test_0"), ("tag", "value")] 1,
       mkMetric "some_metric" [("origin", "test_1"), ("tag", "value")] 1] =
      [mkMetric "some_metric" [("tag", "value")] 2] := by
  with_unfolding_all decide

/-- Replays the repository's `choose_eq_type` unit test (priority wins over the
higher raw value). -/
theorem aggregate_test_choose_eq_type :
    aggregate_test
      [mkMetric "events_processed_total" [("component_type", "type_0"), ("origin", "type_0")] 2,
       mkMetric "events_processed_total" [("component_type", "type_0"), ("origin", "type_1")] 3] =
      [mkMetric "events_processed_total" [("component_type", "type_0")] 2] := by
  with_unfolding_all decide

/-- Replays the repository's `choose_neq_type` unit test (no priority on either
side: max wins). -/
theorem aggregate_test_choose_neq_type :
    aggregate_test
      [mkMetric "events_processed_total" [("component_type", "type_0"), ("origin", "type_1")] 1,
       mkMetric "events_processed_total" [("component_type", "type_0"), ("origin", "type_2")] 2] =
      [mkMetric "events_processed_total" [("component_type", "type_0")] 2] := by
  with_unfolding_all decide

/-- Replays the repository's `multi` unit test. -/
theorem aggregate_test_multi :
    aggregate_test
      [mkMetric "events_processed_total"
         [("component_type", "type_0"), ("origin", "test_0"), ("tag", "value")] 1,
       mkMetric "events_processed_total"
         [("component_type", "type_0"), ("origin", "test_1"), ("tag", "value")] 1,
       mkMetric "events_processed_total" [("component_type", "type_0"), ("origin", "type_0")] 3,
       mkMetric "events_processed_total" [("component_type", "type_0"), ("origin", "type_1")] 5,
       mkMetric "processed_bytes_total" [("component_type", "type_0"), ("origin", "type_1")] 1,
       mkMetric "processed_bytes_total" [("component_type", "type_0"), ("origin", "type_2")] 4] =
      [mkMetric "events_processed_total" [("component_type", "type_0")] 3,
       mkMetric "events_processed_total" [("component_type", "type_0"), ("tag", "value")] 1,
       mkMetric "processed_bytes_total" [("component_type", "type_0")] 4] := by
  with_unfolding_all decide

/-! ## Basic lemmas about tags and `stripMetric` -/

theorem tagsGet_tagsRemove_self (t : Tags) (k : String) :
    tagsGet (tagsRemove t k) k = none := by
  induction t with
  | nil => rfl
  | cons p rest ih =>
    by_cases h : p.1 = k
    · rw [tagsRemove, List.filter_cons, if_neg (by simp [h])]
      exact ih
    · rw [tagsRemove, List.filter_cons, if_pos (by simp [h])]
      rw [tagsGet, List.find?_cons_of_neg _ (by simp [h])]
      exact ih

theorem tagsGet_tagsRemove_ne (t : Tags) (k k' : String) (h : k' ≠ k) :
    tagsGet (tagsRemove t k) k' = tagsGet t k' := by
  induction t with
  | nil => rfl
  | cons p rest ih =>
    by_cases hq : p.1 = k'
    · have hp : ¬ p.1 = k := fun hh => h (hq ▸ hh)
      rw [tagsRemove, List.filter_cons, if_pos (by simp [hp])]
      simp only [tagsGet]
      rw [List.find?_cons_of_pos _ (by simp [hq]), List.find?_cons_of_pos _ (by simp [hq])]
    · by_cases hp : p.1 = k
      · rw [tagsRemove, List.filter_cons, if_neg (by simp [hp])]
        conv_rhs => rw [tagsGet, List.find?_cons_of_neg _ (by simp [hq])]
        exact ih
      · rw [tagsRemove, List.filter_cons, if_pos (by simp [hp])]
        simp only [tagsGet]
        rw [List.find?_cons_of_neg _ (by simp [hq]), List.find?_cons_of_neg _ (by simp [hq])]
        exact ih

theorem stripMetric_name (m : Metric) : (stripMetric m).name = m.name := rfl

theorem stripMetric_value (m : Metric) : (stripMetric m).value = m.value := rfl

theorem stripMetric_tag_value_ne (m : Metric) (k : String) (h : k ≠ "origin") :
    (stripMetric m).tag_value k = m.tag_value k := by
  cases htags : m.tags with
  | none => simp [stripMetric, Metric.tag_value, htags]
  | some t => simp [stripMetric, Metric.tag_value, htags, tagsGet_tagsRemove_ne t _ _ h]

theorem stripMetric_origin (m : Metric) :
    (stripMetric m).tag_value "origin" = none := by
  cases htags : m.tags with
  | none => simp [stripMetric, Metric.tag_value, htags]
  | some t => simp [stripMetric, Metric.tag_value, htags, tagsGet_tagsRemove_self]

theorem cname_strip (m : Metric) : cname (stripMetric m) = cname m :=
  stripMetric_tag_value_ne m "component_name" (by decide)

/-! ## Comparator reflexivity -/

theorem natCmp_self (a : Nat) : natCmp a a = .eq := by
  simp [natCmp]

theorem listCmp_self (f : α → α → Ordering) (hf : ∀ a, f a a = .eq) :
    ∀ l : List α, listCmp f l l = .eq := by
  intro l
  induction l with
  | nil => rfl
  | cons a as ih => simp [listCmp, hf a, ih]

theorem strCmp_self (s : String) : strCmp s s = .eq :=
  listCmp_self charCmp (fun c => natCmp_self c.toNat) s.data

theorem pairCmp_self (f : α → α → Ordering) (g : β → β → Ordering)
    (hf : ∀ a, f a a = .eq) (hg : ∀ b, g b b = .eq) (p : α × β) :
    pairCmp f g p p = .eq := by
  simp [pairCmp, hf p.1, hg p.2]

theorem tagsCmp_self (t : Tags) : tagsCmp t t = .eq :=
  listCmp_self _ (fun p => pairCmp_self _ _ strCmp_self strCmp_self p) t

theorem optCmp_self (f : α → α → Ordering) (hf : ∀ a, f a a = .eq) :
    ∀ o : Option α, optCmp f o o = .eq
  | none => rfl
  | some a => hf a

theorem metricKeyCmp_eq (a b : Metric) (hname : a.name = b.name)
    (htags : a.tags = b.tags) : metricKeyCmp a b = .eq := by
  rw [metricKeyCmp, hname, htags]
  exact pairCmp_self _ _ strCmp_self (optCmp_self _ tagsCmp_self) _

/-! ## Membership lemmas for `aggregate` -/

theorem mergePair_eq_some {c p r : Metric × Bool} (h : mergePair c p = some r) :
    ∃ v, r = ({ p.1 with value := .counter v }, p.2) := by
  rw [mergePair] at h
  split at h
  · split at h
    · exact ⟨_, (Option.some.inj h).symm⟩
    · exact absurd h (by simp)
  · exact absurd h (by simp)

theorem dedupLoop_mem (P : Metric → Prop)
    (hv : ∀ m v, P m → P { m with value := v }) :
    ∀ (l acc : List (Metric × Bool)),
      (∀ x ∈ acc, P x.1) → (∀ x ∈ l, P x.1) →
      ∀ y ∈ dedupLoop acc l, P y.1 := by
  intro l
  induction l with
  | nil =>
    intro acc hacc _ y hy
    rw [dedupLoop] at hy
    exact hacc y (List.mem_reverse.mp hy)
  | cons x xs ih =>
    intro acc hacc hl y hy
    match acc with
    | [] =>
      rw [dedupLoop] at hy
      refine ih [x] ?_ ?_ y hy
      · intro z hz
        rw [List.mem_singleton.mp hz]
        exact hl x (List.mem_cons_self x xs)
      · intro z hz
        exact hl z (List.mem_cons_of_mem x hz)
    | p :: rest =>
      rw [dedupLoop] at hy
      rcases hmp : mergePair x p with _ | p'
      · rw [hmp] at hy
        refine ih (x :: p :: rest) ?_ ?_ y hy
        · intro z hz
          rcases List.mem_cons.mp hz with h | h
          · rw [h]; exact hl x (List.mem_cons_self x xs)
          · exact hacc z h
        · intro z hz
          exact hl z (List.mem_cons_of_mem x hz)
      · rw [hmp] at hy
        refine ih (p' :: rest) ?_ ?_ y hy
        · intro z hz
          rcases List.mem_cons.mp hz with h | h
          · obtain ⟨v, rfl⟩ := mergePair_eq_some hmp
            rw [h]
            exact hv p.1 _ (hacc p (List.mem_cons_self p rest))
          · exact hacc z (List.mem_cons_of_mem p h)
        · intro z hz
          exact hl z (List.mem_cons_of_mem x hz)

theorem aggBlock_mem (P : Metric → Prop)
    (hv : ∀ m v, P m → P { m with value := v })
    (ms : List (Metric × Bool)) (h : ∀ x ∈ ms, P (stripMetric x.1)) :
    ∀ y ∈ aggBlock ms, P y := by
  intro y hy
  rw [aggBlock] at hy
  obtain ⟨z, hz, rfl⟩ := List.mem_map.mp hy
  refine dedupLoop_mem P hv _ [] (by simp) ?_ z hz
  intro x hx
  have hx' : x ∈ ms.map stripAndFlag :=
    ((List.perm_insertionSort aggRel _).mem_iff).mp hx
  obtain ⟨w, hw, rfl⟩ := List.mem_map.mp hx'
  exact h w hw

/-! ## C5: aggregation output never carries an `origin` tag -/

/-- C5: for every input metric list, no metric in the aggregator's output
carries an `origin` tag — including metrics that were never merged because
their `(name, tags)` collision failed the counter-pair shape check (the
`origin` tag is removed from every entry before sorting and merging). -/
theorem aggregate_no_origin (ms : List (Metric × Bool)) (m : Metric)
    (hm : m ∈ (aggregate ms []).2) : m.tag_value "origin" = none := by
  have hm' : m ∈ aggBlock ms := by simpa [aggregate] using hm
  refine aggBlock_mem (fun x => x.tag_value "origin" = none) ?_ ms ?_ m hm'
  · intro x v hx
    exact hx
  · intro x _
    exact stripMetric_origin x.1

/-- Witness for C5 at a concrete input: a lone non-counter-mergeable metric
still loses its `origin` tag. -/
theorem aggregate_no_origin_witness :
    (mkMetric "some_metric" [("tag", "value")] 1).tag_value "origin" = none :=
  aggregate_no_origin
    [(mkMetric "some_metric" [("origin", "test_0"), ("tag", "value")] 1, true)]
    (mkMetric "some_metric" [("tag", "value")] 1)
    (by with_unfolding_all decide)

/-! ## C6: aggregation is a deterministic, stateless function of its input -/

/-- C6: running `aggregate` twice on an identical input list yields identical
output: the metrics buffer is drained to empty, the emitted block `r` is a
function of the input list alone (no hidden state survives a call), and a
second run on the same input appends the very same block `r` again. -/
theorem aggregate_deterministic (ms : List (Metric × Bool)) (out : List Metric) :
    ∃ r, aggregate ms out = ([], out ++ r) ∧
      aggregate ms (out ++ r) = ([], (out ++ r) ++ r) :=
  ⟨aggBlock ms, rfl, rfl⟩

/-! ## C9: a metric with neither `origin` nor `component_type` is flagged true -/

/-- C9: the priority flag compares the removed `origin` tag with the
`component_type` tag as `Option`s, so a metric carrying neither tag gets
`none == none = true` and its value wins the priority merge of an
`events_processed_total` duplicate whose origin differed from its component
type — even when the duplicate's raw value is larger. -/
theorem priority_flag_absent_tags :
    (∀ m : Metric, originOf m = none → m.tag_value "component_type" = none →
      priorityFlag m = true) ∧
    (aggregate
       [(mkMetric "events_processed_total" [("tag", "value")] 2, false),
        (mkMetric "events_processed_total" [("origin", "other_type"), ("tag", "value")] 5, false)]
       []).2 =
      [mkMetric "events_processed_total" [("tag", "value")] 2] := by
  constructor
  · intro m h1 h2
    rw [priorityFlag, h1, stripMetric_tag_value_ne m _ (by decide), h2]
    rfl
  · with_unfolding_all decide

/-- Witness for C9: a tagless-of-both metric is flagged true. -/
theorem priority_flag_absent_tags_witness :
    priorityFlag (mkMetric "events_processed_total" [("tag", "value")] 2) = true :=
  priority_flag_absent_tags.1 _ (by with_unfolding_all decide) (by with_unfolding_all decide)

/-! ## C8: tap controller lifecycle sends exactly Start then Stop -/

/-- C8: constructing a `TapController` sends exactly one `Tap(Start(sink))`
control message, and dropping it sends exactly one `Tap(Stop(sink))` whose
sink has the same identity (`TapSink` equality is by `id`) as the started one;
the controller's whole lifetime (construction followed by drop — its only
operations) appends exactly these two messages to the control channel. -/
theorem tap_controller_start_stop (control : List ControlMessage) (sink : TapSink) :
    (TapController.new control sink).2 = control ++ [.tap (.start sink)] ∧
    TapController.drop (TapController.new control sink).1 (TapController.new control sink).2 =
      control ++ [.tap (.start sink), .tap (.stop sink)] ∧
    (TapController.new control sink).1.sink.id = sink.id := by
  refine ⟨rfl, ?_, rfl⟩
  simp [TapController.new, TapController.drop]

/-! ## C2: output ordering of `component_metrics` -/

/-- Counterexample to C2: the code sorts by `(rank, metric name)` — not by
`(rank, component_name)` — so with two Source components `A`, `B` where `A`
emits both `events_processed_total` and `processed_bytes_total`, the output
interleaves `A`'s metrics around `B`'s and is not grouped by
`component_name`. -/
theorem component_metrics_not_grouped :
    ¬ groupedByCname (component_metrics regAB eventsABA) := by
  with_unfolding_all decide

/-! ## C3: the worked throughput example -/

/-- Counterexample to C3: for readings `[10, 15, 15, 22]` the per-component
mode does not output `[0, 7]`, and the global mode does not output `[7]`.
The `.skip(1)` only drops the first emission/interval (the `10 - 0` artifact);
the `15 - 10 = 5` delta survives in both modes. -/
theorem throughput_example_counterexample :
    ((component_counter_throughputs filterEventsProcessed regC
        [tickC 10, tickC 15, tickC 15, tickC 22]).flatten.map (·.2) ≠ [0, 7]) ∧
    ((counter_throughput filterEventsProcessed
        [tickC 10, tickC 15, tickC 15, tickC 22]).map (·.2) ≠ [7]) := by
  constructor
  · with_unfolding_all decide
  · with_unfolding_all decide

/-- C3 amended: for the counter reading sequence `[10, 15, 15, 22]` of one
component, the per-component throughput mode outputs exactly the deltas
`[5, 0, 7]` (one interval vector each; the skip-one rule discards only the
first interval's `10 - 0` reading, and zero deltas surface) and the global
throughput mode outputs exactly `[5, 7]` (the non-increase `15 → 15` emits
nothing, and the skip-one rule discards only the initial `10 - 0`). -/
theorem throughput_example_amended :
    ((component_counter_throughputs filterEventsProcessed regC
        [tickC 10, tickC 15, tickC 15, tickC 22]).map (fun l => l.map (·.2)) =
      [[5], [0], [7]]) ∧
    ((counter_throughput filterEventsProcessed
        [tickC 10, tickC 15, tickC 15, tickC 22]).map (·.2) = [5, 7]) := by
  constructor
  · with_unfolding_all decide
  · with_unfolding_all decide

/-! ## C4: the "only if increased" filter after a counter reset -/

/-- Counterexample to C4: the per-component cache stores the *last* reading
(`insert` always updates it), not a high-water mark; after readings `10` then
`0`, the later reading `3` exceeds the cached `0` and IS emitted. -/
theorem only_if_increased_reset_counterexample :
    (component_counter_metrics filterEventsProcessed regC
       [tickC 10, tickC 0, tickC 3]).getD 2 [] ≠ [] := by
  with_unfolding_all decide

/-- Evaluating the "only if increased" run for component `c` over three
intervals with symbolic readings `h`, `0`, `v`: what remains are the three
comparisons against the cached previous reading. -/
theorem totalsRun_c (h v : ℚ) :
    totalsLoop filterEventsProcessed
      [[mkMetric "events_processed_total" [("component_name", "c")] h],
       [mkMetric "events_processed_total" [("component_name", "c")] 0],
       [mkMetric "events_processed_total" [("component_name", "c")] v]] [] =
      [if (0:ℚ) < h then [mkMetric "events_processed_total" [("component_name", "c")] h] else [],
       if h < 0 then [mkMetric "events_processed_total" [("component_name", "c")] 0] else [],
       if (0:ℚ) < v then [mkMetric "events_processed_total" [("component_name", "c")] v] else []] :=
  rfl

/-- C4 amended: the per-component "only if increased" filter compares each
reading against the cached value, and the cache is always updated to the last
reading (it is not a high-water mark).  A component whose counter resets to
zero is therefore suppressed only while its readings do not exceed the
immediately preceding one: after readings `h > 0` then `0`, any later reading
`v > 0` IS emitted (e.g. after `10` then `0`, a later `3` is emitted). -/
theorem only_if_increased_amended (h v : ℚ) (hh : 0 < h) (hv : 0 < v) :
    component_counter_metrics filterEventsProcessed regC [tickC h, tickC 0, tickC v] =
      [[mkMetric "events_processed_total" [("component_name", "c")] h], [],
       [mkMetric "events_processed_total" [("component_name", "c")] v]] := by
  have e : component_counter_metrics filterEventsProcessed regC [tickC h, tickC 0, tickC v] =
      totalsLoop filterEventsProcessed
        [[mkMetric "events_processed_total" [("component_name", "c")] h],
         [mkMetric "events_processed_total" [("component_name", "c")] 0],
         [mkMetric "events_processed_total" [("component_name", "c")] v]] [] := rfl
  rw [e, totalsRun_c, if_pos hh, if_neg (lt_asymm hh), if_pos hv]

/-- Witness for C4 amended at the claim's own numbers `10`, `0`, `3`. -/
theorem only_if_increased_amended_witness :
    component_counter_metrics filterEventsProcessed regC [tickC 10, tickC 0, tickC 3] =
      [[mkMetric "events_processed_total" [("component_name", "c")] 10], [],
       [mkMetric "events_processed_total" [("component_name", "c")] 3]] :=
  only_if_increased_amended 10 3 (by with_unfolding_all decide) (by with_unfolding_all decide)

/-! ## C7: tap sink notifications -/

theorem any_fst_mapIdx (p : String → Bool) :
    ∀ (l : List String) (f : Nat → String → String × Nat),
      (∀ i nm, (f i nm).1 = nm) →
      (l.mapIdx f).any (fun q => p q.1) = l.any p := by
  intro l
  induction l with
  | nil => intro f _; rfl
  | cons x xs ih =>
    intro f hf
    rw [List.mapIdx_cons, List.any_cons, List.any_cons, hf 0 x,
      ih (fun i => f (i + 1)) (fun i nm => hf (i + 1) nm)]

/-- `contains_key` on a freshly constructed sink's input table holds exactly
for the construction-time input names. -/
theorem new_containsInput (input_names : List String) (seed : Nat) (name : String) :
    (TapSink.new input_names seed).containsInput name =
      input_names.any (fun nm => nm == name) := by
  have e : (TapSink.new input_names seed).containsInput name =
      (input_names.mapIdx (fun i nm => (nm, seed + 1 + i))).any (fun q => q.1 == name) := rfl
  rw [e, any_fst_mapIdx (fun nm => nm == name) input_names _ (fun i nm => rfl)]

/-- C7: a Tap Sink constructed with input names `["a", "b"]` enqueues, for
`component_matched("a")` followed by `component_not_matched("b")`, exactly the
two notifications `"a"`/Matched and `"b"`/NotMatched, in order; and both
notification calls are no-ops for any name the sink was not constructed with
(such as `"c"`). -/
theorem tap_sink_notifications :
    (TapSink.component_not_matched (TapSink.new ["a", "b"] 0) "b"
       (TapSink.component_matched (TapSink.new ["a", "b"] 0) "a" []) =
      [.notification "a" .componentMatched, .notification "b" .componentNotMatched]) ∧
    (∀ (input_names : List String) (seed : Nat) (name : String) (q : List TapResult),
      name ∉ input_names →
        TapSink.component_matched (TapSink.new input_names seed) name q = q ∧
        TapSink.component_not_matched (TapSink.new input_names seed) name q = q) := by
  refine ⟨by with_unfolding_all decide, ?_⟩
  intro input_names seed name q hmem
  have hc : (TapSink.new input_names seed).containsInput name = false := by
    rw [new_containsInput, List.any_eq_false]
    intro x hx
    simp only [beq_iff_eq]
    exact fun hxe => hmem (hxe ▸ hx)
  constructor
  · rw [TapSink.component_matched, hc]
    rfl
  · rw [TapSink.component_not_matched, hc]
    rfl

/-- Witness for C7: the unrequested name `"c"` enqueues nothing. -/
theorem tap_sink_notifications_witness :
    TapSink.component_matched (TapSink.new ["a", "b"] 0) "c" [] = [] ∧
    TapSink.component_not_matched (TapSink.new ["a", "b"] 0) "c" [] = [] :=
  tap_sink_notifications.2 ["a", "b"] 0 "c" [] (by decide)

/-! ## C1: the merge rule for adjacent counter pairs -/

theorem insertionSort_pair {x y : Metric × Bool} (h : aggRel x y) :
    List.insertionSort aggRel [x, y] = [x, y] := by
  simp only [List.insertionSort, List.orderedInsert]
  rw [if_pos h]

theorem dedupBy_pair_merge {x y r : Metric × Bool} (h : mergePair y x = some r) :
    dedupBy [x, y] = [r] := by
  rw [dedupBy, dedupLoop, dedupLoop, h]
  rfl

/-- C1: when `aggregate` merges a pair of metrics sharing
`(name, tags-after-origin-removal)` that are both counters, the merged value
follows the documented rule (`mergedValue`): for `events_processed_total` and
`processed_bytes_total`, the priority-flagged value wins when exactly one of
the pair is flagged (`origin == component_type`), and `max(a, b)` is taken
when both or neither are; every other counter name merges to `a + b`. -/
theorem aggregate_counter_pair (m1 m2 : Metric) (b1 b2 : Bool) (a b : ℚ)
    (hname : m1.name = m2.name)
    (hv1 : m1.value = .counter a) (hv2 : m2.value = .counter b)
    (htags : (stripMetric m1).tags = (stripMetric m2).tags) :
    ∃ m', (aggregate [(m1, b1), (m2, b2)] []).2 = [m'] ∧
      m'.name = m1.name ∧ m'.tags = (stripMetric m1).tags ∧
      m'.value = .counter (mergedValue m1.name (priorityFlag m1) (priorityFlag m2) a b) := by
  have hsname : (stripMetric m1).name = (stripMetric m2).name := hname
  have hrel : aggRel (stripMetric m1, priorityFlag m1) (stripMetric m2, priorityFlag m2) := by
    show metricKeyCmp (stripMetric m1) (stripMetric m2) ≠ Ordering.gt
    rw [metricKeyCmp_eq _ _ hsname htags]
    simp
  have hmap : [(m1, b1), (m2, b2)].map stripAndFlag =
      [(stripMetric m1, priorityFlag m1), (stripMetric m2, priorityFlag m2)] := rfl
  have hmerge : mergePair (stripMetric m2, priorityFlag m2) (stripMetric m1, priorityFlag m1) =
      some ({ stripMetric m1 with
              value := .counter (mergedValue m1.name (priorityFlag m2) (priorityFlag m1) b a) },
            priorityFlag m1) := by
    rw [mergePair, if_pos ⟨hsname.symm, htags.symm⟩]
    rw [show (stripMetric m2).value = MetricValue.counter b from hv2,
        show (stripMetric m1).value = MetricValue.counter a from hv1]
    rfl
  have hcomm : mergedValue m1.name (priorityFlag m2) (priorityFlag m1) b a =
      mergedValue m1.name (priorityFlag m1) (priorityFlag m2) a b := by
    unfold mergedValue
    by_cases hn : m1.name = "events_processed_total" ∨ m1.name = "processed_bytes_total"
    · rw [if_pos hn, if_pos hn]
      cases priorityFlag m1 <;> cases priorityFlag m2 <;> simp [max_comm]
    · rw [if_neg hn, if_neg hn]
      exact add_comm b a
  refine ⟨{ stripMetric m1 with
            value := .counter (mergedValue m1.name (priorityFlag m2) (priorityFlag m1) b a) },
    ?_, rfl, rfl, ?_⟩
  · show [] ++ aggBlock [(m1, b1), (m2, b2)] = _
    rw [List.nil_append, aggBlock, hmap, insertionSort_pair hrel, dedupBy_pair_merge hmerge]
    rfl
  · show MetricValue.counter _ = MetricValue.counter _
    rw [hcomm]

/-- Witness for C1 at the spec's worked example: origins `type_0`/`type_1`
against component type `type_0`, raw values `2` and `3`; the flagged `2` wins. -/
theorem aggregate_counter_pair_witness :
    ∃ m', (aggregate
        [(mkMetric "events_processed_total" [("component_type", "type_0"), ("origin", "type_0")] 2, false),
         (mkMetric "events_processed_total" [("component_type", "type_0"), ("origin", "type_1")] 3, false)]
        []).2 = [m'] ∧
      m'.name = (mkMetric "events_processed_total" [("component_type", "type_0"), ("origin", "type_0")] 2).name ∧
      m'.tags = (stripMetric (mkMetric "events_processed_total" [("component_type", "type_0"), ("origin", "type_0")] 2)).tags ∧
      m'.value = .counter
        (mergedValue
          (mkMetric "events_processed_total" [("component_type", "type_0"), ("origin", "type_0")] 2).name
          (priorityFlag (mkMetric "events_processed_total" [("component_type", "type_0"), ("origin", "type_0")] 2))
          (priorityFlag (mkMetric "events_processed_total" [("component_type", "type_0"), ("origin", "type_1")] 3))
          2 3) :=
  aggregate_counter_pair _ _ false false 2 3 rfl rfl rfl (by with_unfolding_all decide)

/-! ## Structure of the classifier output (C2 amended, C10) -/

instance : IsTotal (Metric × Nat) sortRel :=
  ⟨fun a b => by
    rcases lt_trichotomy a.2 b.2 with h | h | h
    · exact .inl (.inl h)
    · rcases le_total a.1.name.data b.1.name.data with h2 | h2
      · exact .inl (.inr ⟨h, h2⟩)
      · exact .inr (.inr ⟨h.symm, h2⟩)
    · exact .inr (.inl h)⟩

instance : IsTrans (Metric × Nat) sortRel :=
  ⟨fun a b c hab hbc => by
    rcases hab with h1 | ⟨e1, l1⟩ <;> rcases hbc with h2 | ⟨e2, l2⟩
    · exact .inl (h1.trans h2)
    · exact .inl (lt_of_lt_of_le h1 (le_of_eq e2))
    · exact .inl (lt_of_le_of_lt (le_of_eq e1) h2)
    · exact .inr ⟨e1.trans e2, l1.trans l2⟩⟩

/-- Every classified entry has a `component_name` tag naming a registered
component, and its attached sort rank is that component's role rank. -/
theorem classify_spec (registry : Registry) (events : List MEvent) :
    ∀ x ∈ classify registry events, cname x.1 ≠ none ∧ nrank registry (cname x.1) = x.2 := by
  intro x hx
  rw [classify, List.mem_filterMap] at hx
  obtain ⟨ev, _, hev⟩ := hx
  match ev with
  | .log => exact absurd hev (by simp)
  | .metric m =>
    rcases h1 : m.tag_value "component_name" with _ | name
    · simp only [h1] at hev
      exact Option.noConfusion hev
    · simp only [h1] at hev
      rcases h2 : registry name with _ | c
      · simp only [h2] at hev
        exact Option.noConfusion hev
      · simp only [h2, Option.some.injEq] at hev
        rw [← hev]
        refine ⟨by simp [cname, h1], ?_⟩
        show nrank registry (m.tag_value "component_name") = rankOf c
        simp only [h1, nrank, h2]

theorem mem_sorted_classify {registry : Registry} {events : List MEvent} {x : Metric × Nat}
    (hx : x ∈ List.insertionSort sortRel (classify registry events)) :
    cname x.1 ≠ none ∧ nrank registry (cname x.1) = x.2 :=
  classify_spec registry events x ((List.perm_insertionSort sortRel _).mem_iff.mp hx)

/-- The sorted classifier output, projected to metrics, has non-decreasing
role ranks. -/
theorem sorted_pairwise_rank (registry : Registry) (events : List MEvent) :
    List.Pairwise (fun a b : Metric => mrank registry a ≤ mrank registry b)
      ((List.insertionSort sortRel (classify registry events)).map (·.1)) := by
  rw [List.pairwise_map]
  have hs : List.Pairwise sortRel (List.insertionSort sortRel (classify registry events)) :=
    List.sorted_insertionSort sortRel (classify registry events)
  refine hs.imp_of_mem ?_
  intro a b ha hb hab
  show mrank registry a.1 ≤ mrank registry b.1
  rw [mrank, mrank, (mem_sorted_classify ha).2, (mem_sorted_classify hb).2]
  rcases hab with h | ⟨e, _⟩
  · exact le_of_lt h
  · exact le_of_eq e

theorem mem_sorted_cname {registry : Registry} {events : List MEvent} {m : Metric}
    (hm : m ∈ (List.insertionSort sortRel (classify registry events)).map (·.1)) :
    cname m ≠ none := by
  obtain ⟨x, hx, rfl⟩ := List.mem_map.mp hm
  exact (mem_sorted_classify hx).1

theorem pairwise_of_const {β : Type _} {f : β → Nat} {c : Nat} :
    ∀ {l : List β}, (∀ x ∈ l, f x = c) →
      List.Pairwise (fun a b => f a ≤ f b) l := by
  intro l
  induction l with
  | nil => intro _; exact List.Pairwise.nil
  | cons x xs ih =>
    intro h
    refine List.Pairwise.cons ?_ (ih fun y hy => h y (List.mem_cons_of_mem x hy))
    intro y hy
    rw [h x (List.mem_cons_self x xs), h y (List.mem_cons_of_mem x hy)]

/-- Flushing a run through `aggregate` only emits metrics of the run's
component. -/
theorem flush_cnames {component : List (Metric × Bool)} {currName : Option String}
    (hcomp : ∀ q ∈ component, cname q.1 = currName) :
    ∀ p ∈ aggBlock component, cname p = currName := by
  refine aggBlock_mem (fun m => cname m = currName) ?_ component ?_
  · intro m v hm
    exact hm
  · intro x hx
    rw [cname_strip]
    exact hcomp x hx

theorem flush_rank {registry : Registry} {component : List (Metric × Bool)}
    {currName : Option String} {out : List Metric}
    (hcomp : ∀ q ∈ component, cname q.1 = currName)
    (hout : List.Pairwise (fun a b => mrank registry a ≤ mrank registry b) out)
    (hbound : ∀ p ∈ out, mrank registry p ≤ nrank registry currName) :
    List.Pairwise (fun a b => mrank registry a ≤ mrank registry b) (out ++ aggBlock component) ∧
      ∀ p ∈ out ++ aggBlock component, mrank registry p ≤ nrank registry currName := by
  have hblockrank : ∀ p ∈ aggBlock component, mrank registry p = nrank registry currName := by
    intro p hp
    rw [mrank, flush_cnames hcomp p hp]
  constructor
  · rw [List.pairwise_append]
    refine ⟨hout, pairwise_of_const hblockrank, ?_⟩
    intro p hp q hq
    rw [hblockrank q hq]
    exact hbound p hp
  · intro p hp
    rcases List.mem_append.mp hp with h | h
    · exact hbound p h
    · exact le_of_eq (hblockrank p h)

theorem componentLoop_rank (registry : Registry) :
    ∀ (input : List Metric) (component : List (Metric × Bool)) (currName : Option String)
      (out : List Metric),
      (∀ q ∈ component, cname q.1 = currName) →
      List.Pairwise (fun a b => mrank registry a ≤ mrank registry b) out →
      (∀ p ∈ out, mrank registry p ≤ nrank registry currName) →
      (∀ x ∈ input, nrank registry currName ≤ mrank registry x) →
      List.Pairwise (fun a b => mrank registry a ≤ mrank registry b) input →
      List.Pairwise (fun a b => mrank registry a ≤ mrank registry b)
        (componentLoop input component currName out) := by
  intro input
  induction input with
  | nil =>
    intro component currName out hcomp hout hbound _ _
    rw [componentLoop]
    exact (flush_rank hcomp hout hbound).1
  | cons m rest ih =>
    intro component currName out hcomp hout hbound hlow hpw
    rw [componentLoop]
    by_cases hEq : currName = m.tag_value "component_name"
    · rw [if_pos hEq]
      refine ih _ currName out ?_ hout hbound
        (fun x hx => hlow x (List.mem_cons_of_mem m hx)) (List.pairwise_cons.mp hpw).2
      intro q hq
      rcases List.mem_append.mp hq with h | h
      · exact hcomp q h
      · rw [List.mem_singleton.mp h]
        exact hEq.symm
    · rw [if_neg hEq]
      have hf := flush_rank hcomp hout hbound
      refine ih [(m, false)] (m.tag_value "component_name") ((aggregate component out).2)
        ?_ hf.1 ?_ ?_ (List.pairwise_cons.mp hpw).2
      · intro q hq
        rw [List.mem_singleton.mp hq]
      · intro p hp
        calc mrank registry p ≤ nrank registry currName := hf.2 p hp
          _ ≤ mrank registry m := hlow m (List.mem_cons_self m rest)
      · intro x hx
        exact (List.pairwise_cons.mp hpw).1 x hx

/-- C2 corrected: `component_metrics` stable-sorts the surviving metrics by
`(role rank, metric name)` — not by `(rank, component_name)` — and aggregates
contiguous runs of equal `component_name`.  The output therefore has
non-decreasing component-role ranks for any registry and input (all metrics of
Source-role components precede all Transform-role metrics, which precede all
Sink-role metrics), but it is not in general grouped by `component_name`
(see `component_metrics_not_grouped`). -/
theorem component_metrics_role_ordered (registry : Registry) (events : List MEvent) :
    List.Pairwise (fun a b => mrank registry a ≤ mrank registry b)
      (component_metrics registry events) := by
  show List.Pairwise _
    (componentLoop ((List.insertionSort sortRel (classify registry events)).map (·.1)) [] none [])
  refine componentLoop_rank registry _ [] none [] (by simp) List.Pairwise.nil (by simp)
    (fun x _ => Nat.zero_le _) (sorted_pairwise_rank registry events)

/-! ## C10: every emitted metric keeps its `component_name` tag -/

theorem componentLoop_cname :
    ∀ (input : List Metric) (component : List (Metric × Bool)) (currName : Option String)
      (out : List Metric),
      (∀ q ∈ component, cname q.1 = currName) →
      (component = [] ∨ currName ≠ none) →
      (∀ x ∈ input, cname x ≠ none) →
      (∀ p ∈ out, cname p ≠ none) →
      ∀ m ∈ componentLoop input component currName out, cname m ≠ none := by
  intro input
  induction input with
  | nil =>
    intro component currName out hcomp hcn _ hout m hm
    rw [componentLoop] at hm
    rcases List.mem_append.mp (show m ∈ out ++ aggBlock component from hm) with h | h
    · exact hout m h
    · rcases hcn with rfl | hcn
      · exact absurd (show m ∈ ([] : List Metric) from h) (List.not_mem_nil m)
      · rw [flush_cnames hcomp m h]
        exact hcn
  | cons x rest ih =>
    intro component currName out hcomp hcn hin hout m hm
    rw [componentLoop] at hm
    by_cases hEq : currName = x.tag_value "component_name"
    · rw [if_pos hEq] at hm
      refine ih _ currName out ?_ ?_ (fun y hy => hin y (List.mem_cons_of_mem x hy)) hout m hm
      · intro q hq
        rcases List.mem_append.mp hq with h | h
        · exact hcomp q h
        · rw [List.mem_singleton.mp h]
          exact hEq.symm
      · right
        rw [hEq]
        exact hin x (List.mem_cons_self x rest)
    · rw [if_neg hEq] at hm
      refine ih [(x, false)] _ _ ?_ ?_ (fun y hy => hin y (List.mem_cons_of_mem x hy)) ?_ m hm
      · intro q hq
        rw [List.mem_singleton.mp hq]
      · right
        exact hin x (List.mem_cons_self x rest)
      · intro p hp
        rcases List.mem_append.mp (show p ∈ out ++ aggBlock component from hp) with h | h
        · exact hout p h
        · rcases hcn with rfl | hcn
          · exact absurd (show p ∈ ([] : List Metric) from h) (List.not_mem_nil p)
          · rw [flush_cnames hcomp p h]
            exact hcn

theorem component_metrics_cname (registry : Registry) :
    ∀ (events : List MEvent), ∀ m ∈ component_metrics registry events, cname m ≠ none := by
  intro events m hm
  have hm' : m ∈ componentLoop
      ((List.insertionSort sortRel (classify registry events)).map (·.1)) [] none [] := hm
  refine componentLoop_cname _ [] none [] (by simp) (.inl rfl) ?_ (by simp) m hm'
  intro x hx
  exact mem_sorted_cname hx

theorem throughputInterval_mem (filter_fn : Metric → Bool) :
    ∀ (l : List Metric) (cache : List (String × ℚ)) (p : Metric × ℚ),
      p ∈ (throughputInterval filter_fn l cache).1 → p.1 ∈ l := by
  intro l
  induction l with
  | nil =>
    intro cache p hp
    exact absurd (show p ∈ ([] : List (Metric × ℚ)) from hp) (List.not_mem_nil p)
  | cons m rest ih =>
    intro cache p hp
    rw [throughputInterval] at hp
    by_cases hf : filter_fn m
    · rw [if_pos hf] at hp
      rcases h1 : m.tag_value "component_name" with _ | cn
      · simp only [h1] at hp
        exact List.mem_cons_of_mem m (ih cache p hp)
      · simp only [h1] at hp
        rcases h2 : m.value with v | v
        · simp only [h2] at hp
          rcases hci : cacheInsert cache cn v with ⟨old, cache1⟩
          simp only [hci] at hp
          rcases hti : throughputInterval filter_fn rest cache1 with ⟨outs, cache2⟩
          simp only [hti] at hp
          rcases List.mem_cons.mp hp with rfl | h
          · exact List.mem_cons_self m rest
          · refine List.mem_cons_of_mem m (ih cache1 p ?_)
            rw [hti]
            exact h
        · simp only [h2] at hp
          exact List.mem_cons_of_mem m (ih cache p hp)
    · rw [if_neg hf] at hp
      exact List.mem_cons_of_mem m (ih cache p hp)

theorem throughputsLoop_mem (filter_fn : Metric → Bool) :
    ∀ (ivs : List (List Metric)) (cache : List (String × ℚ)) (l : List (Metric × ℚ)),
      l ∈ throughputsLoop filter_fn ivs cache →
      ∀ p ∈ l, ∃ iv ∈ ivs, p.1 ∈ iv := by
  intro ivs
  induction ivs with
  | nil =>
    intro cache l hl
    exact absurd (show l ∈ ([] : List (List (Metric × ℚ))) from hl) (List.not_mem_nil l)
  | cons iv rest ih =>
    intro cache l hl p hp
    rw [throughputsLoop] at hl
    rcases hti : throughputInterval filter_fn iv cache with ⟨outs, cache'⟩
    simp only [hti] at hl
    rcases List.mem_cons.mp hl with rfl | h
    · refine ⟨iv, List.mem_cons_self iv rest, throughputInterval_mem filter_fn iv cache p ?_⟩
      rw [hti]
      exact hp
    · obtain ⟨iv', hiv', hpi⟩ := ih cache' l h p hp
      exact ⟨iv', List.mem_cons_of_mem iv hiv', hpi⟩

/-- C10: every metric emitted by `component_metrics` retains its
`component_name` tag (the classifier drops metrics lacking one and aggregation
removes only the `origin` tag), and so does every metric inside the
per-component throughput vectors built from it — hence the
`tag_value("component_name").unwrap()` in the per-component throughput mappers
never panics. -/
theorem component_name_tag_present (registry : Registry) :
    (∀ (events : List MEvent), ∀ m ∈ component_metrics registry events,
      ∃ s, m.tag_value "component_name" = some s) ∧
    (∀ (filter_fn : Metric → Bool) (ticks : List (List MEvent)),
      ∀ l ∈ component_counter_throughputs filter_fn registry ticks,
      ∀ p ∈ l, ∃ s, p.1.tag_value "component_name" = some s) := by
  constructor
  · intro events m hm
    exact Option.ne_none_iff_exists'.mp (component_metrics_cname registry events m hm)
  · intro filter_fn ticks l hl p hp
    have hl' : l ∈ throughputsLoop filter_fn (ticks.map (component_metrics registry)) [] :=
      List.drop_subset 1 _ hl
    obtain ⟨iv, hiv, hpi⟩ := throughputsLoop_mem filter_fn _ [] l hl' p hp
    obtain ⟨tick, _, rfl⟩ := List.mem_map.mp hiv
    exact Option.ne_none_iff_exists'.mp (component_metrics_cname registry tick p.1 hpi)

/-- Witness for C10 on a concrete interval. -/
theorem component_name_tag_present_witness :
    ∃ s, (mkMetric "events_processed_total" [("component_name", "c")] 10).tag_value
      "component_name" = some s :=
  (component_name_tag_present regC).1 (tickC 10) _ (by with_unfolding_all decide)

end VectorObs
